import Mathlib

/-!
Verification development for the P16 insights-dashboard data layer.

The definitions below are a shallow embedding of `src/data_manager.py` and
`src/fetchers/github_fetcher.py`.  Calendar dates are modelled as natural
numbers (days since the Unix epoch); a pandas `DataFrame` holding one metric
series is modelled as a column-name list together with `(date, value)` rows;
the file system and the HTTP transport are passed in as explicit state.
-/

/-- A two-column metric dataframe: the column schema plus `(date, value)`
rows.  Dates are days since the Unix epoch. -/
structure DF where
  cols : List String
  rows : List (Nat × Int)
deriving DecidableEq, Repr

/-- The six metric types handled by `DataManager.types`. -/
inductive MetricType
  | stars | forks | prs | downloads | issues | contributions
deriving DecidableEq, Repr, Fintype

/-- The `expected_cols` dictionary of `DataManager._fetch_and_save_data`. -/
def expectedCols : MetricType → List String
  | .stars => ["date", "stars"]
  | .forks => ["date", "forks"]
  | .prs => ["date", "pr_count"]
  | .downloads => ["date", "downloads"]
  | .issues => ["date", "issues"]
  | .contributions => ["date", "commits"]

/-- First value stored under a key in an association list (the value pandas
keeps for a date after `drop_duplicates`, and Python `dict.get` order). -/
def lookupD {κ β : Type} [DecidableEq κ] (k : κ) : List (κ × β) → Option β
  | [] => none
  | x :: xs => if x.1 = k then some x.2 else lookupD k xs

/-- Pandas `drop_duplicates(subset=["date"])`: keep the first row for each
date, in order; `seen` accumulates the dates already kept. -/
def dropDupFirstAux (seen : List Nat) : List (Nat × Int) → List (Nat × Int)
  | [] => []
  | x :: xs =>
    if x.1 ∈ seen then dropDupFirstAux seen xs
    else x :: dropDupFirstAux (x.1 :: seen) xs

/-- Pandas `drop_duplicates(subset=["date"])` with the default `keep="first"`. -/
def dropDupFirst (l : List (Nat × Int)) : List (Nat × Int) :=
  dropDupFirstAux [] l

/-- Pandas `sort_values("date")` on a two-column frame. -/
def sortByDate (l : List (Nat × Int)) : List (Nat × Int) :=
  List.insertionSort (fun a b => a.1 ≤ b.1) l

/-- The merge step of `DataManager.get_all_cached_data_for_range`:
`pd.concat([cached, fresh]).drop_duplicates(subset=["date"]).sort_values("date")`. -/
def mergeCachedFresh (cached fresh : List (Nat × Int)) : List (Nat × Int) :=
  sortByDate (dropDupFirst (cached ++ fresh))

/-- The distinct dates of an event list, ascending: the index produced by a
pandas `groupby("date")` (group keys are emitted sorted). -/
def uniqueDates (dates : List Nat) : List Nat :=
  (List.insertionSort (· ≤ ·) dates).dedup

/-- The `groupby("date").sum()` of rows `(date, 1)`: for each distinct date,
the number of events on that date, sorted ascending by date. -/
def groupCounts (dates : List Nat) : List (Nat × Int) :=
  (uniqueDates dates).map fun d => (d, (dates.count d : Int))

/-- The `groupby("date")["v"].sum()` of arbitrary `(date, v)` rows, sorted
ascending by date (used by the downloads fetcher). -/
def groupSum (rows : List (Nat × Int)) : List (Nat × Int) :=
  (uniqueDates (rows.map Prod.fst)).map fun d =>
    (d, ((rows.filter fun r => r.1 = d).map Prod.snd).sum)

/-- Pandas `cumsum` over the value column, threading the running total. -/
def cumsumRows (acc : Int) : List (Nat × Int) → List (Nat × Int)
  | [] => []
  | (d, v) :: rest => (d, acc + v) :: cumsumRows (acc + v) rest

/-- Minimum of a date column (`cached_dates.min()`), folded from a seed. -/
def minList (a : Nat) (l : List Nat) : Nat :=
  l.foldl min a

/-- Maximum of a date column (`cached_dates.max()`), folded from a seed. -/
def maxList (a : Nat) (l : List Nat) : Nat :=
  l.foldl max a

/-! ### Basic lemmas about the list utilities -/

theorem lookupD_eq_none {κ β : Type} [DecidableEq κ] (k : κ) (l : List (κ × β)) :
    lookupD k l = none ↔ k ∉ l.map Prod.fst := by
  induction l with
  | nil => simp [lookupD]
  | cons x xs ih =>
    by_cases h : x.1 = k
    · simp [lookupD, h]
    · simp only [lookupD, if_neg h, List.map_cons, List.mem_cons, ih]
      constructor
      · rintro hk (h1 | h2)
        · exact h h1.symm
        · exact hk h2
      · exact fun hk h2 => hk (Or.inr h2)

theorem lookupD_append {κ β : Type} [DecidableEq κ] (k : κ) (l₁ l₂ : List (κ × β)) :
    lookupD k (l₁ ++ l₂) =
      match lookupD k l₁ with
      | some v => some v
      | none => lookupD k l₂ := by
  induction l₁ with
  | nil => simp [lookupD]
  | cons x xs ih =>
    by_cases h : x.1 = k <;> simp [lookupD, h, ih]

theorem mem_of_lookupD_eq_some {κ β : Type} [DecidableEq κ] {k : κ} {v : β}
    {l : List (κ × β)} (h : lookupD k l = some v) : (k, v) ∈ l := by
  induction l with
  | nil => simp [lookupD] at h
  | cons x xs ih =>
    by_cases hx : x.1 = k
    · simp [lookupD, hx] at h
      refine List.mem_cons.2 (Or.inl ?_)
      cases x
      simp_all
    · simp [lookupD, hx] at h
      exact List.mem_cons_of_mem _ (ih h)

theorem lookupD_eq_some_of_mem {κ β : Type} [DecidableEq κ] {k : κ} {v : β}
    {l : List (κ × β)} (hn : (l.map Prod.fst).Nodup) (h : (k, v) ∈ l) :
    lookupD k l = some v := by
  induction l with
  | nil => simp at h
  | cons x xs ih =>
    simp only [List.map_cons, List.nodup_cons] at hn
    rcases List.mem_cons.1 h with h | h
    · subst h
      simp [lookupD]
    · have hk : x.1 ≠ k := by
        intro he
        exact hn.1 (he ▸ (List.mem_map.2 ⟨(k, v), h, rfl⟩))
      simp [lookupD, hk, ih hn.2 h]

theorem lookupD_eq_of_perm {κ β : Type} [DecidableEq κ] {l₁ l₂ : List (κ × β)}
    (hp : l₁.Perm l₂) (hn : (l₁.map Prod.fst).Nodup) (k : κ) :
    lookupD k l₁ = lookupD k l₂ := by
  have hn₂ : (l₂.map Prod.fst).Nodup := ((hp.map Prod.fst).nodup_iff).1 hn
  cases hv : lookupD k l₁ with
  | some v =>
    exact (lookupD_eq_some_of_mem hn₂ (hp.mem_iff.1 (mem_of_lookupD_eq_some hv))).symm
  | none =>
    have : k ∉ l₂.map Prod.fst := by
      intro hmem
      exact ((lookupD_eq_none k l₁).1 hv) (((hp.map Prod.fst).mem_iff).2 hmem)
    exact ((lookupD_eq_none k l₂).2 this).symm

theorem mem_keys_dropDupFirstAux (seen : List Nat) (l : List (Nat × Int)) (k : Nat) :
    k ∈ (dropDupFirstAux seen l).map Prod.fst ↔ k ∈ l.map Prod.fst ∧ k ∉ seen := by
  induction l generalizing seen with
  | nil => simp [dropDupFirstAux]
  | cons x xs ih =>
    by_cases hx : x.1 ∈ seen
    · simp only [dropDupFirstAux, if_pos hx, ih, List.map_cons, List.mem_cons]
      constructor
      · rintro ⟨h1, h2⟩
        exact ⟨Or.inr h1, h2⟩
      · rintro ⟨h1 | h1, h2⟩
        · exact absurd (h1 ▸ hx) h2
        · exact ⟨h1, h2⟩
    · simp only [dropDupFirstAux, if_neg hx, List.map_cons, List.mem_cons, ih,
        List.mem_cons]
      constructor
      · rintro (h | ⟨h1, h2⟩)
        · exact ⟨Or.inl h, h ▸ hx⟩
        · exact ⟨Or.inr h1, fun hs => h2 (Or.inr hs)⟩
      · rintro ⟨h1 | h1, h2⟩
        · exact Or.inl h1
        · by_cases hk : k = x.1
          · exact Or.inl hk
          · exact Or.inr ⟨h1, fun hs => (hs.elim hk h2)⟩

theorem keys_nodup_dropDupFirstAux (seen : List Nat) (l : List (Nat × Int)) :
    ((dropDupFirstAux seen l).map Prod.fst).Nodup := by
  induction l generalizing seen with
  | nil => simp [dropDupFirstAux]
  | cons x xs ih =>
    by_cases hx : x.1 ∈ seen
    · simpa [dropDupFirstAux, if_pos hx] using ih seen
    · simp only [dropDupFirstAux, if_neg hx, List.map_cons, List.nodup_cons]
      refine ⟨fun hmem => ?_, ih (x.1 :: seen)⟩
      have := (mem_keys_dropDupFirstAux (x.1 :: seen) xs x.1).1 hmem
      exact this.2 (List.mem_cons_self _ _)

theorem lookupD_dropDupFirstAux (seen : List Nat) (l : List (Nat × Int)) (k : Nat)
    (hk : k ∉ seen) : lookupD k (dropDupFirstAux seen l) = lookupD k l := by
  induction l generalizing seen with
  | nil => rfl
  | cons x xs ih =>
    obtain ⟨x1, x2⟩ := x
    by_cases hx : x1 ∈ seen
    · have hxk : x1 ≠ k := fun he => hk (he ▸ hx)
      simp only [dropDupFirstAux, if_pos hx, lookupD, if_neg hxk]
      exact ih seen hk
    · by_cases hxk : x1 = k
      · subst hxk
        simp [dropDupFirstAux, if_neg hx, lookupD]
      · simp only [dropDupFirstAux, if_neg hx, lookupD, if_neg hxk]
        refine ih (x1 :: seen) ?_
        intro hmem
        rcases List.mem_cons.1 hmem with h | h
        · exact hxk h.symm
        · exact hk h

theorem dropDupFirstAux_eq_self (seen : List Nat) (l : List (Nat × Int))
    (hn : (l.map Prod.fst).Nodup) (hd : ∀ k ∈ l.map Prod.fst, k ∉ seen) :
    dropDupFirstAux seen l = l := by
  induction l generalizing seen with
  | nil => rfl
  | cons x xs ih =>
    simp only [List.map_cons, List.nodup_cons] at hn
    have hx : x.1 ∉ seen := hd x.1 (List.mem_cons_self _ _)
    simp only [dropDupFirstAux, if_neg hx]
    refine congrArg _ (ih (x.1 :: seen) hn.2 ?_)
    intro k hmem hk
    rcases List.mem_cons.1 hk with h | h
    · exact hn.1 (h ▸ hmem)
    · exact hd k (List.mem_cons_of_mem _ hmem) h

instance : IsTotal (Nat × Int) (fun a b => a.1 ≤ b.1) :=
  ⟨fun a b => Nat.le_total a.1 b.1⟩

instance : IsTrans (Nat × Int) (fun a b => a.1 ≤ b.1) :=
  ⟨fun _ _ _ h₁ h₂ => Nat.le_trans h₁ h₂⟩

theorem sortByDate_sorted (l : List (Nat × Int)) :
    List.Sorted (fun a b => a.1 ≤ b.1) (sortByDate l) :=
  List.sorted_insertionSort _ l

theorem sortByDate_perm (l : List (Nat × Int)) : (sortByDate l).Perm l :=
  List.perm_insertionSort _ l

theorem sortByDate_eq_self {l : List (Nat × Int)}
    (h : List.Sorted (fun a b => a.1 ≤ b.1) l) : sortByDate l = l :=
  List.Sorted.insertionSort_eq h

/-! ### Characterization of the cached/fresh merge -/

theorem mergeCachedFresh_keys_nodup (cached fresh : List (Nat × Int)) :
    ((mergeCachedFresh cached fresh).map Prod.fst).Nodup := by
  have hp := (sortByDate_perm (dropDupFirst (cached ++ fresh))).map Prod.fst
  exact hp.nodup_iff.2 (keys_nodup_dropDupFirstAux [] _)

theorem mergeCachedFresh_mem_keys (cached fresh : List (Nat × Int)) (k : Nat) :
    k ∈ (mergeCachedFresh cached fresh).map Prod.fst ↔
      k ∈ (cached ++ fresh).map Prod.fst := by
  have hp := (sortByDate_perm (dropDupFirst (cached ++ fresh))).map Prod.fst
  rw [mergeCachedFresh, hp.mem_iff, dropDupFirst, mem_keys_dropDupFirstAux]
  simp

theorem mergeCachedFresh_sorted (cached fresh : List (Nat × Int)) :
    List.Sorted (fun a b => a.1 ≤ b.1) (mergeCachedFresh cached fresh) :=
  sortByDate_sorted _

theorem mergeCachedFresh_lookupD (cached fresh : List (Nat × Int)) (k : Nat) :
    lookupD k (mergeCachedFresh cached fresh) = lookupD k (cached ++ fresh) := by
  have hn : ((sortByDate (dropDupFirst (cached ++ fresh))).map Prod.fst).Nodup :=
    ((sortByDate_perm _).map Prod.fst).nodup_iff.2 (keys_nodup_dropDupFirstAux [] _)
  rw [mergeCachedFresh, lookupD_eq_of_perm (sortByDate_perm _) hn k]
  exact lookupD_dropDupFirstAux [] _ k (by simp)

theorem mergeCachedFresh_cached_wins (cached fresh : List (Nat × Int)) (k : Nat)
    (hk : k ∈ cached.map Prod.fst) :
    lookupD k (mergeCachedFresh cached fresh) = lookupD k cached := by
  rw [mergeCachedFresh_lookupD, lookupD_append]
  cases hv : lookupD k cached with
  | some v => rfl
  | none => exact absurd ((lookupD_eq_none k cached).1 hv) (by simpa using hk)

/-! ### Grouping lemmas -/

theorem uniqueDates_sorted (l : List Nat) : List.Sorted (· ≤ ·) (uniqueDates l) :=
  (List.sorted_insertionSort _ l).sublist (List.dedup_sublist _)

theorem uniqueDates_nodup (l : List Nat) : (uniqueDates l).Nodup :=
  List.nodup_dedup _

theorem mem_uniqueDates (l : List Nat) (d : Nat) : d ∈ uniqueDates l ↔ d ∈ l := by
  rw [uniqueDates, List.mem_dedup, (List.perm_insertionSort _ l).mem_iff]

theorem uniqueDates_sorted_lt (l : List Nat) :
    List.Sorted (· < ·) (uniqueDates l) :=
  (uniqueDates_sorted l).lt_of_le (uniqueDates_nodup l)

theorem groupCounts_keys (dates : List Nat) :
    (groupCounts dates).map Prod.fst = uniqueDates dates := by
  simp [groupCounts, List.map_map, Function.comp_def]

theorem groupCounts_pairwise (dates : List Nat) :
    List.Pairwise (fun a b : Nat × Int => a.1 < b.1) (groupCounts dates) := by
  refine List.Pairwise.map _ ?_ (uniqueDates_sorted_lt dates)
  intro a b h
  simpa using h

theorem lookupD_groupCounts (dates : List Nat) (d : Nat) (hd : d ∈ dates) :
    lookupD d (groupCounts dates) = some (dates.count d : Int) := by
  refine lookupD_eq_some_of_mem ?_ ?_
  · rw [groupCounts_keys]
    exact uniqueDates_nodup dates
  · exact List.mem_map.2 ⟨d, (mem_uniqueDates dates d).2 hd, rfl⟩

theorem groupSum_keys (rows : List (Nat × Int)) :
    (groupSum rows).map Prod.fst = uniqueDates (rows.map Prod.fst) := by
  simp [groupSum, List.map_map, Function.comp_def]

theorem groupSum_pairwise (rows : List (Nat × Int)) :
    List.Pairwise (fun a b : Nat × Int => a.1 < b.1) (groupSum rows) := by
  refine List.Pairwise.map _ ?_ (uniqueDates_sorted_lt (rows.map Prod.fst))
  intro a b h
  simpa using h

/-! ### Cumulative-sum lemmas -/

theorem cumsumRows_map_fst (acc : Int) (l : List (Nat × Int)) :
    (cumsumRows acc l).map Prod.fst = l.map Prod.fst := by
  induction l generalizing acc with
  | nil => rfl
  | cons x xs ih =>
    obtain ⟨d, v⟩ := x
    simp [cumsumRows, ih]

theorem cumsumRows_length (acc : Int) (l : List (Nat × Int)) :
    (cumsumRows acc l).length = l.length := by
  induction l generalizing acc with
  | nil => rfl
  | cons x xs ih =>
    obtain ⟨d, v⟩ := x
    simp [cumsumRows, ih]

theorem cumsumRows_getElem (l : List (Nat × Int)) (acc : Int) (i : Nat)
    (h : i < (cumsumRows acc l).length) :
    ((cumsumRows acc l)[i]).2 = acc + ((l.take (i + 1)).map Prod.snd).sum := by
  induction l generalizing acc i with
  | nil => simp [cumsumRows] at h
  | cons x xs ih =>
    obtain ⟨d, v⟩ := x
    cases i with
    | zero => simp [cumsumRows]
    | succ n =>
      have hn : n < (cumsumRows (acc + v) xs).length := by
        simpa [cumsumRows] using h
      have hstep : ((cumsumRows acc ((d, v) :: xs)).get ⟨n + 1, h⟩).2 =
          ((cumsumRows (acc + v) xs).get ⟨n, hn⟩).2 := by
        simp [cumsumRows]
      have hget : ((cumsumRows acc ((d, v) :: xs))[n + 1]).2 =
          ((cumsumRows acc ((d, v) :: xs)).get ⟨n + 1, h⟩).2 := rfl
      rw [hget, hstep]
      have hih : ((cumsumRows (acc + v) xs).get ⟨n, hn⟩).2 =
          acc + v + ((xs.take (n + 1)).map Prod.snd).sum := ih (acc + v) n hn
      rw [hih, List.take_succ_cons, List.map_cons, List.sum_cons]
      ring

/-! ### Fetcher models (`src/fetchers/github_fetcher.py`)

Each REST pagination loop accumulates one entry per qualifying API item and
aggregates afterwards; the embedding therefore takes the flat list of
qualifying event dates (the accumulated `all_stars` / `dates` list) as input
and models the aggregation performed on it. -/

/-- `StarsFetcher.fetch_rest` / `fetch_graphql`: stargazer event dates grouped
into daily counts; an empty accumulation yields the schema-only frame. -/
def starsSeries (events : List Nat) : DF :=
  if events.isEmpty then ⟨["date", "stars"], []⟩
  else ⟨["date", "stars"], groupCounts events⟩

/-- `ForksFetcher.fetch_rest`: fork-creation dates grouped into daily counts. -/
def forksRestSeries (events : List Nat) : DF :=
  if events.isEmpty then ⟨["date", "forks"], []⟩
  else ⟨["date", "forks"], groupCounts events⟩

/-- `ForksFetcher.fetch_graphql`: daily deltas computed as in the REST path,
then replaced by their running `cumsum`. -/
def forksGraphqlSeries (events : List Nat) : DF :=
  if events.isEmpty then ⟨["date", "forks"], []⟩
  else ⟨["date", "forks"], cumsumRows 0 (groupCounts events)⟩

/-- `PRsFetcher.fetch`: pull-request creation dates grouped into daily counts. -/
def prsSeries (events : List Nat) : DF :=
  if events.isEmpty then ⟨["date", "pr_count"], []⟩
  else ⟨["date", "pr_count"], groupCounts events⟩

/-- One item of the REST issues listing: the `pull_request` marker plus the
parsed creation date. -/
structure IssueItem where
  isPullRequest : Bool
  date : Nat
deriving DecidableEq, Repr

/-- `IssuesFetcher.fetch`: items carrying the `pull_request` marker are
skipped, the rest are grouped into daily counts. -/
def issuesSeries (items : List IssueItem) : DF :=
  let dates := (items.filter fun i => !i.isPullRequest).map IssueItem.date
  if dates.isEmpty then ⟨["date", "issues"], []⟩
  else ⟨["date", "issues"], groupCounts dates⟩

/-- One release asset: its parsed creation date and its download counter. -/
structure AssetItem where
  date : Nat
  downloadCount : Nat
deriving DecidableEq, Repr

/-- `DownloadsFetcher.fetch`: assets with a positive download counter
contribute `(date, count)` rows which are then summed per date. -/
def downloadsSeries (assets : List AssetItem) : DF :=
  let rows := (assets.filter fun a => 0 < a.downloadCount).map
    fun a => (a.date, (a.downloadCount : Int))
  if rows.isEmpty then ⟨["date", "downloads"], []⟩
  else ⟨["date", "downloads"], groupSum rows⟩

/-- `ContributionsFetcher._fetch_from_commits_api`: recent commit dates
grouped into daily counts. -/
def commitsFallbackSeries (events : List Nat) : DF :=
  if events.isEmpty then ⟨["date", "commits"], []⟩
  else ⟨["date", "commits"], groupCounts events⟩

/-- Expansion of one commit-activity week bucket: day `i` of the bucket gets
date `normalize(to_datetime(week, unit="s") + i days)`, i.e. day number
`(week + i * 86400) / 86400`; zero-count days are dropped. -/
def expandWeek (weekTs : Nat) (days : List Nat) : List (Nat × Int) :=
  days.enum.filterMap fun p =>
    if 0 < p.2 then some ((weekTs + p.1 * 86400) / 86400, (p.2 : Int)) else none

/-- `ContributionsFetcher._fetch_from_stats_api` on a decoded 200 response:
every week bucket is expanded and the rows are sorted by date (no
deduplication is applied). -/
def statsSeries (weeks : List (Nat × List Nat)) : DF :=
  let rows := weeks.flatMap fun w => expandWeek w.1 w.2
  if rows.isEmpty then ⟨["date", "commits"], []⟩
  else ⟨["date", "commits"], sortByDate rows⟩

/-- Day number (days since 1970-01-01) of a Gregorian calendar date, for
years from 1970 on. -/
def daysFromCivil (y m d : Nat) : Nat :=
  let yAdj := if m ≤ 2 then y - 1 else y
  let era := yAdj / 400
  let yoe := yAdj % 400
  let mp := (m + 9) % 12
  let doy := (153 * mp + 2) / 5 + d - 1
  let doe := yoe * 365 + yoe / 4 - yoe / 100 + doy
  era * 146097 + doe - 719468

/-! ### Transport model (`BaseFetcher._request`) -/

/-- An HTTP response as `_request` inspects it: the status code and the
parsed `X-RateLimit-Reset` header when present and numeric. -/
structure HttpResponse where
  status : Nat
  resetHeader : Option Nat
deriving DecidableEq, Repr

/-- Sleep length chosen on a 403: `min(max(0, reset - now) + 1, 10)` when a
reset header is available, else the backoff capped at 5. -/
def rateLimitWait (now : Nat) (r : HttpResponse) (backoff : Nat) : Nat :=
  match r.resetHeader with
  | some reset => min (reset - now + 1) 10
  | none => min backoff 5

/-- The retry loop of `BaseFetcher._request` with `max_retries = 3`.  `fuel`
counts the remaining loop iterations, `attempt` indexes the transport's
responses, `backoff` is `backoff_s`, and `sleeps` records every
`time.sleep`.  The loop `break`s on the last 403 after sleeping, so the
`fuel = 0` base case is never reached from `requestModel`. -/
def requestAux (resp : Nat → HttpResponse) (now : Nat) :
    Nat → Nat → Nat → List Nat → HttpResponse × List Nat
  | 0, attempt, _, sleeps => (resp attempt, sleeps)
  | fuel + 1, attempt, backoff, sleeps =>
    let r := resp attempt
    if r.status = 403 then
      let wait := rateLimitWait now r backoff
      let backoff2 :=
        match r.resetHeader with
        | some _ => backoff
        | none => min (backoff * 2) 5
      if fuel = 0 then (r, sleeps ++ [wait])
      else requestAux resp now fuel (attempt + 1) backoff2 (sleeps ++ [wait])
    else (r, sleeps)

/-- `BaseFetcher._request`: the returned response and the sleeps performed,
for a transport delivering `resp n` on the `n`-th attempt. -/
def requestModel (resp : Nat → HttpResponse) (now : Nat) :
    HttpResponse × List Nat :=
  requestAux resp now 3 0 2 []

/-! ### GraphQL issues model (`IssuesFetcher.fetch_graphql`) -/

/-- A field value inside the `repository.issues` connection object. -/
inductive GqlField
  | nodes (dates : List Nat)
  | pageInfo (hasNext : Bool) (endCursor : Option String)
deriving DecidableEq, Repr

/-- One GraphQL connection page, modelled as the JSON object's field list. -/
structure GqlPage where
  fields : List (String × GqlField)
deriving DecidableEq, Repr

/-- `sg.get("edges") or []`: the date list stored under the `edges` key,
empty when the key is absent. -/
def getEdges (p : GqlPage) : List Nat :=
  match lookupD "edges" p.fields with
  | some (GqlField.nodes ds) => ds
  | _ => []

/-- `page.get("hasNextPage")` through `sg.get("pageInfo") or {}`. -/
def getHasNext (p : GqlPage) : Bool :=
  match lookupD "pageInfo" p.fields with
  | some (GqlField.pageInfo h _) => h
  | _ => false

/-- The pagination loop of `IssuesFetcher.fetch_graphql` (`max_pages = 10`):
accumulate the `edges` dates of each page, stop when `hasNextPage` is falsy
or more than 500 dates were collected; an exhausted page stream behaves like
the empty GraphQL data mapping. -/
def issuesGraphqlGo : Nat → List GqlPage → List Nat → List Nat
  | 0, _, dates => dates
  | _ + 1, [], dates => dates
  | fuel + 1, p :: rest, dates =>
    let dates2 := dates ++ getEdges p
    if !getHasNext p then dates2
    else if 500 < dates2.length then dates2
    else issuesGraphqlGo fuel rest dates2

/-- `IssuesFetcher.fetch_graphql`: the accumulated dates grouped into daily
counts, or the schema-only frame when nothing was accumulated. -/
def issuesGraphqlSeries (pages : List GqlPage) : DF :=
  let dates := issuesGraphqlGo 10 pages []
  if dates.isEmpty then ⟨["date", "issues"], []⟩
  else ⟨["date", "issues"], groupCounts dates⟩

/-! ### Orchestrator model (`src/data_manager.py`)

The `DataLoader` is not part of the sources; following the spec's
persistence boundary, the persisted artifact for one `(metric, owner, repo)`
triple is modelled as an explicit file state whose `content` is the frame a
load returns (`Modelled from the spec:` flat per-metric tabular file, the
only state surviving restarts). -/

/-- On-disk cache artifact for one `(metric, owner, repo)` triple: whether
the file exists, its last-modified time (seconds), and the frame a load of
it yields. -/
structure FS where
  present : Bool
  mtime : ℚ
  content : DF
deriving DecidableEq

/-- `DataManager._is_data_stale`: a missing file is stale; otherwise the age
in hours must strictly exceed the threshold. -/
def isDataStale (present : Bool) (mtime now threshold : ℚ) : Bool :=
  if !present then true
  else decide ((now - mtime) / 3600 > threshold)

/-- `DataManager._fetch_and_save_data`: a raised fetch is caught and turned
into the schema-only frame; otherwise the frame is projected onto the
expected columns, or replaced by the schema-only frame when a column is
missing.  The CSV write is fire-and-forget and does not affect the returned
value. -/
def fetchAndSaveData (t : MetricType) (fetched : Except String DF) : DF :=
  match fetched with
  | .error _ => ⟨expectedCols t, []⟩
  | .ok df =>
    let available := (expectedCols t).filter fun c => c ∈ df.cols
    if available.length ≠ (expectedCols t).length then ⟨expectedCols t, []⟩
    else ⟨available, df.rows⟩

/-- `DataManager.get_data`: fetch (and save) when forced or stale, else load
the cached frame. -/
def getData (t : MetricType) (fs : FS) (now threshold : ℚ) (forceRefresh : Bool)
    (fetched : Except String DF) : DF :=
  if forceRefresh || isDataStale fs.present fs.mtime now threshold then
    fetchAndSaveData t fetched
  else fs.content

/-- The `range_covered` test of `get_all_cached_data_for_range`: the cached
date column must span the requested window and the artifact must not be
time-stale. -/
def coveredRange (rows : List (Nat × Int)) (startD endD : Nat) (stale : Bool) :
    Bool :=
  match rows with
  | [] => false
  | r :: rs =>
    decide (minList r.1 (rs.map Prod.fst) ≤ startD) &&
    decide (endD ≤ maxList r.1 (rs.map Prod.fst)) && !stale

/-- One metric type's pass of `DataManager.get_all_cached_data_for_range`.
`_fetch_missing_data` always returns an empty frame in the sources, so a
range miss falls through to a full fetch; the fetched frame is merged with
the cached rows by date-deduplication and re-sorting when the cache is
non-empty.  `_fetch_and_save_data` never raises, so the enclosing
`except` fallback of the source is unreachable. -/
def getRangeOne (t : MetricType) (fs : FS) (now threshold : ℚ)
    (startD endD : Nat) (forceRefresh : Bool) (fetched : Except String DF) :
    DF :=
  let cached := if fs.present then fs.content else ⟨expectedCols t, []⟩
  let needFetch0 := forceRefresh || cached.rows.isEmpty
  let needFetch :=
    if needFetch0 then true
    else !coveredRange cached.rows startD endD
      (isDataStale fs.present fs.mtime now threshold)
  if needFetch then
    let fresh := fetchAndSaveData t fetched
    if cached.rows.isEmpty then fresh
    else ⟨cached.cols, mergeCachedFresh cached.rows fresh.rows⟩
  else cached

/-! ### Attribute environment (`DataManager.__init__`) -/

/-- A Python attribute value, covering the attributes `__init__` assigns. -/
inductive AttrVal
  | str (s : String)
  | num (n : Nat)
  | strList (l : List String)
  | fileMap (m : List (String × String))
  | obj
deriving DecidableEq, Repr

/-- The attribute environment `DataManager.__init__` leaves on `self`:
`data_dir`, `refresh_threshold_hours`, `fetcher`, `loader` and `types`.  No
other method of the class assigns an attribute. -/
def dataManagerInitAttrs (dataDir : String) (thresholdHours : Nat) :
    List (String × AttrVal) :=
  [("data_dir", .str dataDir),
   ("refresh_threshold_hours", .num thresholdHours),
   ("fetcher", .obj),
   ("loader", .obj),
   ("types", .strList ["stars", "forks", "prs", "downloads", "issues",
     "contributions"])]

/-- `DataManager.get_data_status`: the first attribute access is
`self.type_to_file.items()`; an unassigned attribute raises
`AttributeError`.  The per-file status payload is abstracted to the file
map, which is unreachable from a constructed `DataManager`. -/
def getDataStatus (attrs : List (String × AttrVal)) :
    Except String (List (String × String)) :=
  match lookupD "type_to_file" attrs with
  | some (AttrVal.fileMap m) => .ok m
  | some _ => .error "TypeError"
  | none => .error "AttributeError: type_to_file"

/-- `DataManager.clear_cache`: both branches start by reading
`self.type_to_file` (`.values()` or `.get(data_type)`). -/
def clearCache (attrs : List (String × AttrVal)) (_dataType : Option String) :
    Except String Unit :=
  match lookupD "type_to_file" attrs with
  | some (AttrVal.fileMap _) => .ok ()
  | some _ => .error "TypeError"
  | none => .error "AttributeError: type_to_file"

/-! ### Further helper lemmas -/

theorem pairwise_fst_iff (l : List (Nat × Int)) :
    List.Pairwise (fun a b : Nat × Int => a.1 < b.1) l ↔
      List.Pairwise (· < ·) (l.map Prod.fst) :=
  (List.pairwise_map).symm

/-! ### Claims -/

/-- Claim C4 (confirmed).  Staleness boundary: `_is_data_stale` holds iff the
file does not exist or its age strictly exceeds the threshold; an artifact
whose last-modified time is exactly `now - threshold` hours is NOT stale,
and one older by any positive amount `ε` is stale. -/
theorem claim_C4 (present : Bool) (mtime now threshold : ℚ) :
    (isDataStale present mtime now threshold = true ↔
      present = false ∨ threshold < (now - mtime) / 3600) ∧
    isDataStale true (now - 3600 * threshold) now threshold = false ∧
    (∀ ε : ℚ, 0 < ε →
      isDataStale true (now - 3600 * threshold - ε) now threshold = true) := by
  refine ⟨?_, ?_, ?_⟩
  · cases present <;> simp [isDataStale]
  · have key : (now - (now - 3600 * threshold)) / 3600 = threshold := by
      field_simp
    simp [isDataStale, key]
  · intro ε hε
    have key : (now - (now - 3600 * threshold - ε)) / 3600 =
        threshold + ε / 3600 := by
      field_simp
      ring
    simp [isDataStale, key]
    positivity

/-- Claim C4 witness: concrete boundary instance at `now = 100000`,
`threshold = 24` hours, `ε = 1` second. -/
theorem claim_C4_witness :
    (isDataStale true (100000 - 3600 * 24) 100000 24 = false) ∧
    (0 : ℚ) < 1 ∧
    isDataStale true (100000 - 3600 * 24 - 1) 100000 24 = true :=
  ⟨(claim_C4 true 0 100000 24).2.1, by norm_num,
    (claim_C4 true 0 100000 24).2.2 1 (by norm_num)⟩

/-- Claim C10 (confirmed).  `get_data_status` and `clear_cache` (with or
without a metric argument) both read `self.type_to_file`, which
`DataManager.__init__` never assigns, so every call raises
`AttributeError`. -/
theorem claim_C10 (dataDir : String) (thresholdHours : Nat)
    (dt : Option String) :
    getDataStatus (dataManagerInitAttrs dataDir thresholdHours) =
      .error "AttributeError: type_to_file" ∧
    clearCache (dataManagerInitAttrs dataDir thresholdHours) dt =
      .error "AttributeError: type_to_file" :=
  ⟨rfl, rfl⟩

/-- Claim C7 (confirmed).  Empty-response schema: every fetcher maps an
input with zero qualifying items (no items at all; for issues, only
pull-request-marked items; for downloads, only zero-count assets) to an
empty frame that still carries its metric-specific two-column schema, and
the six schemas are pairwise distinct, so the metric type is recoverable
from the schema alone. -/
theorem claim_C7 (items : List IssueItem) (assets : List AssetItem) :
    starsSeries [] = ⟨["date", "stars"], []⟩ ∧
    forksRestSeries [] = ⟨["date", "forks"], []⟩ ∧
    forksGraphqlSeries [] = ⟨["date", "forks"], []⟩ ∧
    prsSeries [] = ⟨["date", "pr_count"], []⟩ ∧
    issuesSeries [] = ⟨["date", "issues"], []⟩ ∧
    ((∀ i ∈ items, i.isPullRequest = true) →
      issuesSeries items = ⟨["date", "issues"], []⟩) ∧
    downloadsSeries [] = ⟨["date", "downloads"], []⟩ ∧
    ((∀ a ∈ assets, a.downloadCount = 0) →
      downloadsSeries assets = ⟨["date", "downloads"], []⟩) ∧
    commitsFallbackSeries [] = ⟨["date", "commits"], []⟩ ∧
    statsSeries [] = ⟨["date", "commits"], []⟩ ∧
    issuesGraphqlSeries [] = ⟨["date", "issues"], []⟩ ∧
    (∀ t₁ t₂ : MetricType, expectedCols t₁ = expectedCols t₂ → t₁ = t₂) := by
  refine ⟨rfl, rfl, rfl, rfl, rfl, ?_, rfl, ?_, rfl, rfl, rfl, by decide⟩
  · intro hall
    have hf : (items.filter fun i => !i.isPullRequest) = [] :=
      List.filter_eq_nil_iff.2 fun i hi => by simp [hall i hi]
    simp [issuesSeries, hf]
  · intro hall
    have hf : (assets.filter fun a => 0 < a.downloadCount) = [] :=
      List.filter_eq_nil_iff.2 fun a ha => by simp [hall a ha]
    simp [downloadsSeries, hf]

/-- Claim C7 witness: the all-pull-request and all-zero-count hypotheses
discharged at concrete one-element inputs. -/
theorem claim_C7_witness :
    issuesSeries [⟨true, 3⟩] = ⟨["date", "issues"], []⟩ ∧
    downloadsSeries [⟨2, 0⟩] = ⟨["date", "downloads"], []⟩ :=
  ⟨(claim_C7 [⟨true, 3⟩] []).2.2.2.2.2.1 (by decide),
   (claim_C7 [] [⟨2, 0⟩]).2.2.2.2.2.2.2.1 (by decide)⟩

/-- Claim C1 (corrected).  Counterexample to the claimed fresh-wins
precedence: with cached series `{(1,5),(2,3)}` and freshly fetched
`{(2,7),(3,1)}`, the range-aware retrieval keeps the cached value `3` for
the shared date `2` — `pd.concat([cached, fresh])` puts the cached rows
first and `drop_duplicates` keeps the first occurrence — while fresh-wins
would require the fresh value `7`. -/
theorem claim_C1_counterexample :
    lookupD 2 (getRangeOne .stars ⟨true, 0, ⟨["date", "stars"], [(1, 5), (2, 3)]⟩⟩
        360000 24 0 10 false (.ok ⟨["date", "stars"], [(2, 7), (3, 1)]⟩)).rows
      = some 3 ∧
    lookupD 2 [((2 : Nat), (7 : Int)), (3, 1)] = some 7 ∧
    some (3 : Int) ≠ some 7 := by
  refine ⟨by decide, by decide, by decide⟩

/-- Claim C1 as amended.  When the range-aware retrieval fetches with a
non-empty cache present, the frame it persists and returns contains each
date of the cached and fresh inputs exactly once, is sorted ascending by
date, and for a date already present in the cache (in particular a date in
both inputs) the kept value is the CACHED one, not the fresh one. -/
theorem claim_C1 (t : MetricType) (fs : FS) (now threshold : ℚ)
    (startD endD : Nat) (force : Bool) (fetched : Except String DF)
    (hp : fs.present = true) (hne : fs.content.rows ≠ [])
    (htrig : force = true ∨
      coveredRange fs.content.rows startD endD
        (isDataStale fs.present fs.mtime now threshold) = false) :
    ((getRangeOne t fs now threshold startD endD force fetched).rows.map
      Prod.fst).Nodup ∧
    (∀ d, d ∈ (getRangeOne t fs now threshold startD endD force
        fetched).rows.map Prod.fst ↔
      d ∈ (fs.content.rows ++ (fetchAndSaveData t fetched).rows).map
        Prod.fst) ∧
    List.Sorted (fun a b : Nat × Int => a.1 ≤ b.1)
      (getRangeOne t fs now threshold startD endD force fetched).rows ∧
    (∀ d, d ∈ fs.content.rows.map Prod.fst →
      lookupD d (getRangeOne t fs now threshold startD endD force
        fetched).rows = lookupD d fs.content.rows) := by
  have hie : fs.content.rows.isEmpty = false := by
    simp [List.isEmpty_iff, hne]
  have hkey : getRangeOne t fs now threshold startD endD force fetched =
      ⟨fs.content.cols,
        mergeCachedFresh fs.content.rows (fetchAndSaveData t fetched).rows⟩ := by
    rcases htrig with hf | hcov
    · subst hf
      simp [getRangeOne, hp, hie]
    · rw [hp] at hcov
      cases force
      · simp [getRangeOne, hp, hie, hcov]
      · simp [getRangeOne, hp, hie]
  rw [hkey]
  exact ⟨mergeCachedFresh_keys_nodup _ _,
    fun d => mergeCachedFresh_mem_keys _ _ d,
    mergeCachedFresh_sorted _ _,
    fun d hd => mergeCachedFresh_cached_wins _ _ d hd⟩

/-- Claim C1 witness: the amended merge properties instantiated on the
spec's own example, cached `{(1,5),(2,3)}` and fresh `{(2,7),(3,1)}`, with
a forced refresh. -/
theorem claim_C1_witness :
    ((getRangeOne .stars ⟨true, 0, ⟨["date", "stars"], [(1, 5), (2, 3)]⟩⟩
        360000 24 0 10 true
        (.ok ⟨["date", "stars"], [(2, 7), (3, 1)]⟩)).rows.map
      Prod.fst).Nodup ∧
    (2 ∈ (getRangeOne .stars ⟨true, 0, ⟨["date", "stars"], [(1, 5), (2, 3)]⟩⟩
        360000 24 0 10 true (.ok ⟨["date", "stars"], [(2, 7), (3, 1)]⟩)).rows.map
        Prod.fst ↔
      2 ∈ ([((1 : Nat), (5 : Int)), (2, 3)] ++
        (fetchAndSaveData .stars
          (.ok ⟨["date", "stars"], [(2, 7), (3, 1)]⟩)).rows).map Prod.fst) ∧
    lookupD 2 (getRangeOne .stars
        ⟨true, 0, ⟨["date", "stars"], [(1, 5), (2, 3)]⟩⟩
        360000 24 0 10 true
        (.ok ⟨["date", "stars"], [(2, 7), (3, 1)]⟩)).rows =
      lookupD 2 [((1 : Nat), (5 : Int)), (2, 3)] := by
  obtain ⟨h1, h2, h3, h4⟩ := claim_C1 .stars
    ⟨true, 0, ⟨["date", "stars"], [(1, 5), (2, 3)]⟩⟩ 360000 24 0 10 true
    (.ok ⟨["date", "stars"], [(2, 7), (3, 1)]⟩) rfl (by decide) (Or.inl rfl)
  exact ⟨h1, h2 2, h4 2 (by decide)⟩

theorem mergeCachedFresh_nil_right {rows : List (Nat × Int)}
    (hn : (rows.map Prod.fst).Nodup)
    (hs : List.Sorted (fun a b : Nat × Int => a.1 ≤ b.1) rows) :
    mergeCachedFresh rows [] = rows := by
  rw [mergeCachedFresh, List.append_nil, dropDupFirst,
    dropDupFirstAux_eq_self [] rows hn (by simp), sortByDate_eq_self hs]

/-- Claim C2 (corrected).  Counterexample: `get_data` is a retrieval
operation of the orchestrator, and on a fetcher exception it returns the
empty schema-correct frame even though a prior non-empty cached series
`[(1,5)]` exists — `_fetch_and_save_data` catches the exception before the
cache could be consulted. -/
theorem claim_C2_counterexample :
    getData .stars ⟨true, 0, ⟨["date", "stars"], [(1, 5)]⟩⟩ 360000 24 true
        (.error "boom") = ⟨["date", "stars"], []⟩ ∧
    (⟨["date", "stars"], []⟩ : DF) ≠ ⟨["date", "stars"], [(1, 5)]⟩ := by
  exact ⟨by decide, by decide⟩

/-- Claim C2 as amended.  No fetcher exception ever propagates (every model
function is total because the source catches every exception).  The
range-aware retrieval returns the prior (well-formed) cached series when it
is present and non-empty, and the empty schema-correct frame when no
non-empty cache exists; `get_data`, however, returns the empty
schema-correct frame on a fetcher exception even when a non-empty cache
exists. -/
theorem claim_C2 (t : MetricType) (fs : FS) (now threshold : ℚ)
    (startD endD : Nat) (force : Bool) (msg : String)
    (hn : (fs.content.rows.map Prod.fst).Nodup)
    (hs : List.Sorted (fun a b : Nat × Int => a.1 ≤ b.1) fs.content.rows) :
    (fs.present = true → fs.content.rows ≠ [] →
      (force = true ∨ isDataStale fs.present fs.mtime now threshold = true) →
      getRangeOne t fs now threshold startD endD force (.error msg) =
        fs.content) ∧
    ((fs.present = false ∨ fs.content.rows = []) →
      getRangeOne t fs now threshold startD endD force (.error msg) =
        ⟨expectedCols t, []⟩) ∧
    getData t fs now threshold true (.error msg) = ⟨expectedCols t, []⟩ := by
  refine ⟨?_, ?_, ?_⟩
  · intro hp hne htrig
    have hie : fs.content.rows.isEmpty = false := by
      simp [List.isEmpty_iff, hne]
    have hkey : getRangeOne t fs now threshold startD endD force (.error msg) =
        ⟨fs.content.cols, mergeCachedFresh fs.content.rows
          (fetchAndSaveData t (.error msg)).rows⟩ := by
      rcases htrig with hf | hstale
      · subst hf
        simp [getRangeOne, hp, hie]
      · rw [hp] at hstale
        cases force
        · rcases hr : fs.content.rows with _ | ⟨r, rs⟩
          · exact absurd hr hne
          · simp [getRangeOne, hp, hie, hr, coveredRange, hstale]
        · simp [getRangeOne, hp, hie]
    rw [hkey]
    have hfr : (fetchAndSaveData t (.error msg)).rows = [] := rfl
    rw [hfr, mergeCachedFresh_nil_right hn hs]
  · intro hcase
    by_cases hp : fs.present = true
    · have hr0 : fs.content.rows = [] := by
        rcases hcase with h | h
        · rw [hp] at h
          exact Bool.noConfusion h
        · exact h
      simp [getRangeOne, hp, hr0, fetchAndSaveData]
    · have hp0 : fs.present = false := by
        cases h : fs.present
        · rfl
        · exact absurd h hp
      simp [getRangeOne, hp0, fetchAndSaveData]
  · simp [getData, fetchAndSaveData]

/-- Claim C2 witness: a forced refresh whose fetch raises, with a non-empty
well-formed cache, returns exactly the cached frame through the range-aware
retrieval; an absent cache yields the schema-only frame; `get_data` yields
the schema-only frame. -/
theorem claim_C2_witness :
    getRangeOne .stars ⟨true, 0, ⟨["date", "stars"], [(1, 5)]⟩⟩ 360000 24
        0 10 true (.error "boom") = ⟨["date", "stars"], [(1, 5)]⟩ ∧
    getRangeOne .stars ⟨false, 0, ⟨["date", "stars"], []⟩⟩ 360000 24
        0 10 false (.error "boom") = ⟨["date", "stars"], []⟩ ∧
    getData .stars ⟨true, 0, ⟨["date", "stars"], [(1, 5)]⟩⟩ 360000 24 true
        (.error "boom") = ⟨["date", "stars"], []⟩ := by
  obtain ⟨h1, _, h3⟩ := claim_C2 .stars
    ⟨true, 0, ⟨["date", "stars"], [(1, 5)]⟩⟩ 360000 24 0 10 true "boom"
    (by decide) (by simp)
  obtain ⟨_, h2, _⟩ := claim_C2 .stars
    ⟨false, 0, ⟨["date", "stars"], []⟩⟩ 360000 24 0 10 false "boom"
    (by decide) (by simp)
  exact ⟨h1 rfl (by decide) (Or.inl rfl), h2 (Or.inl rfl), h3⟩

/-- Claim C3 (confirmed).  Forks semantics split: on the same fork-creation
event dates, the REST forks fetch stores the daily count of each date
(`events.count d`), while the GraphQL forks fetch stores at every row the
running cumulative sum of the daily counts up to and including that row;
whenever events fall on at least two distinct days the two paths return
different row lists. -/
theorem claim_C3 (events : List Nat) :
    ((forksGraphqlSeries events).rows.map Prod.fst =
      (forksRestSeries events).rows.map Prod.fst) ∧
    (∀ d, d ∈ events →
      lookupD d (forksRestSeries events).rows =
        some (events.count d : Int)) ∧
    (∀ i r, (forksGraphqlSeries events).rows.get? i = some r →
      r.2 = (((forksRestSeries events).rows.take (i + 1)).map
        Prod.snd).sum) ∧
    ((∃ d₁ ∈ events, ∃ d₂ ∈ events, d₁ ≠ d₂) →
      (forksGraphqlSeries events).rows ≠ (forksRestSeries events).rows) := by
  by_cases he : events = []
  · subst he
    refine ⟨rfl, ?_, ?_, ?_⟩
    · intro d hd
      simp at hd
    · intro i r hrow
      simp [forksGraphqlSeries, cumsumRows] at hrow
    · rintro ⟨d₁, hd₁, -⟩
      simp at hd₁
  · have hie : events.isEmpty = false := by
      simp [List.isEmpty_iff, he]
    have hg : (forksGraphqlSeries events).rows =
        cumsumRows 0 (groupCounts events) := by
      simp [forksGraphqlSeries, hie]
    have hr : (forksRestSeries events).rows = groupCounts events := by
      simp [forksRestSeries, hie]
    refine ⟨?_, ?_, ?_, ?_⟩
    · rw [hg, hr, cumsumRows_map_fst]
    · intro d hd
      rw [hr]
      exact lookupD_groupCounts events d hd
    · intro i r hrow
      rw [hg] at hrow
      rw [hr]
      rcases List.get?_eq_some.1 hrow with ⟨hlen, hget⟩
      have hval := cumsumRows_getElem (groupCounts events) 0 i hlen
      rw [zero_add] at hval
      rw [← hget]
      exact hval
    · rintro ⟨d₁, hd₁, d₂, hd₂, hne⟩ heq
      rw [hg, hr] at heq
      have hu₁ : d₁ ∈ uniqueDates events := (mem_uniqueDates events d₁).2 hd₁
      have hu₂ : d₂ ∈ uniqueDates events := (mem_uniqueDates events d₂).2 hd₂
      rcases hu : uniqueDates events with _ | ⟨u0, rest⟩
      · rw [hu] at hu₁
        simp at hu₁
      rcases hrest : rest with _ | ⟨u1, rest2⟩
      · rw [hu, hrest] at hu₁ hu₂
        simp at hu₁ hu₂
        exact hne (hu₁.trans hu₂.symm)
      subst hrest
      have hgc : groupCounts events =
          (u0, (events.count u0 : Int)) :: (u1, (events.count u1 : Int)) ::
            (rest2.map fun d => (d, (events.count d : Int))) := by
        rw [groupCounts, hu]
        rfl
      have h2 := congrArg (fun l => l.get? 1) heq
      rw [hgc] at h2
      simp only [cumsumRows, List.get?] at h2
      have hc : (0 : Int) + events.count u0 + events.count u1 =
          events.count u1 := by
        simpa using h2
      have hmem : u0 ∈ events := by
        rw [← mem_uniqueDates, hu]
        exact List.mem_cons_self _ _
      have hpos : 0 < events.count u0 := List.count_pos_iff.2 hmem
      omega

/-- Claim C3 witness: events on two distinct days `[1, 1, 2]`: the REST path
stores daily counts and the GraphQL path the cumulative sums, which differ. -/
theorem claim_C3_witness :
    lookupD 1 (forksRestSeries [1, 1, 2]).rows = some 2 ∧
    ((2 : Nat), (3 : Int)).2 =
      (((forksRestSeries [1, 1, 2]).rows.take 2).map Prod.snd).sum ∧
    (forksGraphqlSeries [1, 1, 2]).rows ≠ (forksRestSeries [1, 1, 2]).rows := by
  obtain ⟨-, h2, h3, h4⟩ := claim_C3 [1, 1, 2]
  exact ⟨h2 1 (by decide), h3 1 (2, 3) (by decide),
    h4 ⟨1, by decide, 2, by decide, by decide⟩⟩

/-- Claim C5 (corrected).  Counterexample: the commit-activity stats path of
the contributions fetcher applies no deduplication after expanding week
buckets, so a stats response with two week buckets sharing the same week
start yields a series with a duplicated date — the claimed
pairwise-distinctness fails for that fetcher. -/
theorem claim_C5_counterexample :
    ¬ (((statsSeries [(0, [1]), (0, [2])]).rows.map Prod.fst).Nodup) := by
  decide

/-- Claim C5 as amended.  Every fetcher returns a series sorted ascending by
date, and every fetcher except the commit-activity stats path (stars, forks
REST and GraphQL, pull requests, issues, downloads, the commits fallback)
additionally has pairwise-distinct dates; the stats path guarantees only
the sort. -/
theorem claim_C5 (events : List Nat) (items : List IssueItem)
    (assets : List AssetItem) (weeks : List (Nat × List Nat)) :
    List.Pairwise (fun a b : Nat × Int => a.1 < b.1) (starsSeries events).rows ∧
    List.Pairwise (fun a b : Nat × Int => a.1 < b.1)
      (forksRestSeries events).rows ∧
    List.Pairwise (fun a b : Nat × Int => a.1 < b.1)
      (forksGraphqlSeries events).rows ∧
    List.Pairwise (fun a b : Nat × Int => a.1 < b.1) (prsSeries events).rows ∧
    List.Pairwise (fun a b : Nat × Int => a.1 < b.1) (issuesSeries items).rows ∧
    List.Pairwise (fun a b : Nat × Int => a.1 < b.1)
      (downloadsSeries assets).rows ∧
    List.Pairwise (fun a b : Nat × Int => a.1 < b.1)
      (commitsFallbackSeries events).rows ∧
    List.Sorted (fun a b : Nat × Int => a.1 ≤ b.1) (statsSeries weeks).rows := by
  have hgc : ∀ dates : List Nat,
      List.Pairwise (fun a b : Nat × Int => a.1 < b.1) (groupCounts dates) :=
    groupCounts_pairwise
  refine ⟨?_, ?_, ?_, ?_, ?_, ?_, ?_, ?_⟩
  · unfold starsSeries
    split
    · exact List.Pairwise.nil
    · exact hgc events
  · unfold forksRestSeries
    split
    · exact List.Pairwise.nil
    · exact hgc events
  · unfold forksGraphqlSeries
    split
    · exact List.Pairwise.nil
    · rw [pairwise_fst_iff, cumsumRows_map_fst, ← pairwise_fst_iff]
      exact hgc events
  · unfold prsSeries
    split
    · exact List.Pairwise.nil
    · exact hgc events
  · unfold issuesSeries
    dsimp only
    split
    · exact List.Pairwise.nil
    · exact hgc _
  · unfold downloadsSeries
    dsimp only
    split
    · exact List.Pairwise.nil
    · exact groupSum_pairwise _
  · unfold commitsFallbackSeries
    split
    · exact List.Pairwise.nil
    · exact hgc events
  · unfold statsSeries
    dsimp only
    split
    · exact List.Pairwise.nil
    · exact sortByDate_sorted _

theorem rateLimitWait_le_ten (now : Nat) (r : HttpResponse) (backoff : Nat) :
    rateLimitWait now r backoff ≤ 10 := by
  unfold rateLimitWait
  cases r.resetHeader with
  | none => exact le_trans (Nat.min_le_right _ _) (by norm_num)
  | some reset => exact Nat.min_le_right _ _

theorem rateLimitWait_none_le_five (now : Nat) (r : HttpResponse)
    (backoff : Nat) (h : r.resetHeader = none) :
    rateLimitWait now r backoff ≤ 5 := by
  unfold rateLimitWait
  rw [h]
  exact Nat.min_le_right _ _

theorem requestAux_result (resp : Nat → HttpResponse) (now : Nat) :
    ∀ fuel, 1 ≤ fuel → ∀ attempt backoff sleeps,
      ∃ k, k + 1 ≤ fuel ∧
        (requestAux resp now fuel attempt backoff sleeps).1 =
          resp (attempt + k) := by
  intro fuel
  induction fuel with
  | zero => intro h; omega
  | succ f ih =>
    intro _ attempt backoff sleeps
    by_cases hs : (resp attempt).status = 403
    · by_cases hf : f = 0
      · subst hf
        refine ⟨0, by omega, ?_⟩
        simp [requestAux, hs]
      · have hf1 : 1 ≤ f := Nat.one_le_iff_ne_zero.2 hf
        obtain ⟨k, hk, hres⟩ := ih hf1 (attempt + 1)
          (match (resp attempt).resetHeader with
            | some _ => backoff
            | none => min (backoff * 2) 5)
          (sleeps ++ [rateLimitWait now (resp attempt) backoff])
        refine ⟨k + 1, by omega, ?_⟩
        have harr : attempt + 1 + k = attempt + (k + 1) := by omega
        rw [harr] at hres
        simpa [requestAux, hs, hf] using hres
    · exact ⟨0, by omega, by simp [requestAux, hs]⟩

theorem requestAux_sleeps_length (resp : Nat → HttpResponse) (now : Nat) :
    ∀ fuel attempt backoff sleeps,
      (requestAux resp now fuel attempt backoff sleeps).2.length ≤
        sleeps.length + fuel := by
  intro fuel
  induction fuel with
  | zero => intro attempt backoff sleeps; simp [requestAux]
  | succ f ih =>
    intro attempt backoff sleeps
    by_cases hs : (resp attempt).status = 403
    · by_cases hf : f = 0
      · subst hf
        simp [requestAux, hs]
      · have := ih (attempt + 1)
          (match (resp attempt).resetHeader with
            | some _ => backoff
            | none => min (backoff * 2) 5)
          (sleeps ++ [rateLimitWait now (resp attempt) backoff])
        simp only [List.length_append, List.length_cons, List.length_nil] at this
        simpa [requestAux, hs, hf] using le_trans this (by omega)
    · simp [requestAux, hs]

theorem requestAux_sleeps_le_ten (resp : Nat → HttpResponse) (now : Nat) :
    ∀ fuel attempt backoff sleeps, (∀ w ∈ sleeps, w ≤ 10) →
      ∀ w ∈ (requestAux resp now fuel attempt backoff sleeps).2, w ≤ 10 := by
  intro fuel
  induction fuel with
  | zero =>
    intro attempt backoff sleeps hw
    simpa [requestAux] using hw
  | succ f ih =>
    intro attempt backoff sleeps hw
    have hext : ∀ w ∈ sleeps ++ [rateLimitWait now (resp attempt) backoff],
        w ≤ 10 := by
      intro w hmem
      rcases List.mem_append.1 hmem with h | h
      · exact hw w h
      · rcases List.mem_singleton.1 h with rfl
        exact rateLimitWait_le_ten now (resp attempt) backoff
    by_cases hs : (resp attempt).status = 403
    · by_cases hf : f = 0
      · subst hf
        simpa [requestAux, hs] using hext
      · have := ih (attempt + 1)
          (match (resp attempt).resetHeader with
            | some _ => backoff
            | none => min (backoff * 2) 5)
          (sleeps ++ [rateLimitWait now (resp attempt) backoff]) hext
        simpa [requestAux, hs, hf] using this
    · simpa [requestAux, hs] using hw

theorem requestAux_sleeps_le_five (resp : Nat → HttpResponse) (now : Nat)
    (hnone : ∀ n, (resp n).resetHeader = none) :
    ∀ fuel attempt backoff sleeps, (∀ w ∈ sleeps, w ≤ 5) →
      ∀ w ∈ (requestAux resp now fuel attempt backoff sleeps).2, w ≤ 5 := by
  intro fuel
  induction fuel with
  | zero =>
    intro attempt backoff sleeps hw
    simpa [requestAux] using hw
  | succ f ih =>
    intro attempt backoff sleeps hw
    have hext : ∀ w ∈ sleeps ++ [rateLimitWait now (resp attempt) backoff],
        w ≤ 5 := by
      intro w hmem
      rcases List.mem_append.1 hmem with h | h
      · exact hw w h
      · rcases List.mem_singleton.1 h with rfl
        exact rateLimitWait_none_le_five now (resp attempt) backoff
          (hnone attempt)
    by_cases hs : (resp attempt).status = 403
    · by_cases hf : f = 0
      · subst hf
        simpa [requestAux, hs] using hext
      · have := ih (attempt + 1)
          (match (resp attempt).resetHeader with
            | some _ => backoff
            | none => min (backoff * 2) 5)
          (sleeps ++ [rateLimitWait now (resp attempt) backoff]) hext
        simpa [requestAux, hs, hf] using this
    · simpa [requestAux, hs] using hw

/-- Claim C6 (confirmed).  `_request` makes at most 3 attempts; every sleep
is at most 10 seconds, and at most 5 seconds when no reset header is ever
provided (exponential backoff); two 403 responses followed by a 200 yield
the 200 response; three 403 responses yield the last failing response,
returned rather than raised. -/
theorem claim_C6 (resp : Nat → HttpResponse) (now : Nat) :
    (∃ k, k ≤ 2 ∧ (requestModel resp now).1 = resp k) ∧
    (requestModel resp now).2.length ≤ 3 ∧
    (∀ w ∈ (requestModel resp now).2, w ≤ 10) ∧
    ((∀ n, (resp n).resetHeader = none) →
      ∀ w ∈ (requestModel resp now).2, w ≤ 5) ∧
    ((resp 0).status = 403 → (resp 1).status = 403 → (resp 2).status = 200 →
      (requestModel resp now).1 = resp 2) ∧
    ((resp 0).status = 403 → (resp 1).status = 403 → (resp 2).status = 403 →
      (requestModel resp now).1 = resp 2) := by
  refine ⟨?_, ?_, ?_, ?_, ?_, ?_⟩
  · obtain ⟨k, hk, hres⟩ := requestAux_result resp now 3 (by omega) 0 2 []
    exact ⟨k, by omega, by simpa using hres⟩
  · simpa using requestAux_sleeps_length resp now 3 0 2 []
  · exact requestAux_sleeps_le_ten resp now 3 0 2 [] (by simp)
  · intro hnone
    exact requestAux_sleeps_le_five resp now hnone 3 0 2 [] (by simp)
  · intro h0 h1 h2
    simp [requestModel, requestAux, h0, h1, h2]
  · intro h0 h1 h2
    simp [requestModel, requestAux, h0, h1, h2]

/-- Claim C6 witness: a transport answering 403 (with reset header), 403
(without), then 200 yields the 200 response; an all-403 no-header transport
only ever sleeps at most 5 seconds. -/
theorem claim_C6_witness :
    (requestModel (fun n => if n = 0 then ⟨403, some 100⟩
        else if n = 1 then ⟨403, none⟩ else ⟨200, none⟩) 98).1 =
      (⟨200, none⟩ : HttpResponse) ∧
    (∀ w ∈ (requestModel (fun _ => ⟨403, none⟩) 98).2, w ≤ 5) := by
  obtain ⟨-, -, -, -, h5, -⟩ := claim_C6 (fun n => if n = 0 then ⟨403, some 100⟩
      else if n = 1 then ⟨403, none⟩ else ⟨200, none⟩) 98
  obtain ⟨-, -, -, h4, -, -⟩ := claim_C6 (fun _ => ⟨403, none⟩) 98
  exact ⟨h5 (by decide) (by decide) (by decide), h4 (fun n => rfl)⟩

/-- Claim C8 (confirmed).  Commit-week expansion: every row emitted by the
stats path comes from some week bucket and day offset `i` within that
bucket, carries date `(week + i * 86400) / 86400` and that day's positive
count (zero-count days are excluded); and the single week starting Sunday
2024-01-07 (Unix `1704585600`) with daily counts `[0,2,0,0,1,0,0]` yields
exactly `[(2024-01-08, 2), (2024-01-11, 1)]`. -/
theorem claim_C8 :
    (∀ (weeks : List (Nat × List Nat)) (r : Nat × Int),
      r ∈ (statsSeries weeks).rows →
      ∃ w ∈ weeks, ∃ i < w.2.length, ∃ c, w.2[i]? = some c ∧ 0 < c ∧
        r = ((w.1 + i * 86400) / 86400, (c : Int))) ∧
    statsSeries [(1704585600, [0, 2, 0, 0, 1, 0, 0])] =
      ⟨["date", "commits"],
        [(daysFromCivil 2024 1 8, 2), (daysFromCivil 2024 1 11, 1)]⟩ := by
  constructor
  · intro weeks r hr
    unfold statsSeries at hr
    dsimp only at hr
    by_cases hie : (weeks.flatMap fun w => expandWeek w.1 w.2).isEmpty
    · rw [if_pos hie] at hr
      simp at hr
    · rw [if_neg hie] at hr
      have hr2 : r ∈ weeks.flatMap fun w => expandWeek w.1 w.2 :=
        (sortByDate_perm _).mem_iff.1 hr
      rcases List.mem_flatMap.1 hr2 with ⟨w, hw, hmem⟩
      rcases List.mem_filterMap.1 hmem with ⟨p, hp, hif⟩
      by_cases hpos : 0 < p.2
      · rw [if_pos hpos] at hif
        have hgetq : w.2[p.1]? = some p.2 := List.mem_enum_iff_getElem?.1 hp
        have hlt : p.1 < w.2.length := by
          rcases List.getElem?_eq_some.1 hgetq with ⟨h, -⟩
          exact h
        exact ⟨w, hw, p.1, hlt, p.2, hgetq, hpos, (Option.some.inj hif).symm⟩
      · rw [if_neg hpos] at hif
        exact absurd hif (by simp)
  · decide

/-- Claim C8 witness: the emission property instantiated on the concrete
week bucket of the spec scenario at the row `(2024-01-08, 2)`. -/
theorem claim_C8_witness :
    ∃ w ∈ [((1704585600 : Nat), ([0, 2, 0, 0, 1, 0, 0] : List Nat))],
      ∃ i < w.2.length,
      ∃ c, w.2[i]? = some c ∧ 0 < c ∧
        ((daysFromCivil 2024 1 8 : Nat), (2 : Int)) =
          ((w.1 + i * 86400) / 86400, (c : Int)) :=
  claim_C8.1 [(1704585600, [0, 2, 0, 0, 1, 0, 0])]
    (daysFromCivil 2024 1 8, 2) (by decide)

theorem getEdges_eq_nil {p : GqlPage}
    (hconf : ∀ k ∈ p.fields.map Prod.fst, k = "nodes" ∨ k = "pageInfo") :
    getEdges p = [] := by
  unfold getEdges
  have hnone : lookupD "edges" p.fields = none := by
    rw [lookupD_eq_none]
    intro hmem
    rcases hconf _ hmem with h | h <;> simp at h
  rw [hnone]

theorem issuesGraphqlGo_conf (fuel : Nat) :
    ∀ (pages : List GqlPage) (dates : List Nat),
      (∀ p ∈ pages, ∀ k ∈ p.fields.map Prod.fst,
        k = "nodes" ∨ k = "pageInfo") →
      issuesGraphqlGo fuel pages dates = dates := by
  induction fuel with
  | zero => intro pages dates _; rfl
  | succ f ih =>
    intro pages dates hconf
    cases pages with
    | nil => rfl
    | cons p rest =>
      have he : getEdges p = [] :=
        getEdges_eq_nil (hconf p (List.mem_cons_self _ _))
      simp only [issuesGraphqlGo, he, List.append_nil]
      by_cases hn : getHasNext p
      · rw [if_neg (by simp [hn])]
        by_cases hlen : 500 < dates.length
        · rw [if_pos hlen]
        · rw [if_neg hlen,
            ih rest dates (fun q hq => hconf q (List.mem_cons_of_mem _ hq))]
      · rw [if_pos (by simp [hn])]

/-- Claim C9 (confirmed).  The GraphQL issues query requests the
connection's `nodes` field, so in every response page conforming to the
query the `edges` key is absent; the fetch reads only `edges`, accumulates
nothing, and returns the empty `(date, issues)` frame for every such
response sequence. -/
theorem claim_C9 (pages : List GqlPage)
    (hconf : ∀ p ∈ pages, ∀ k ∈ p.fields.map Prod.fst,
      k = "nodes" ∨ k = "pageInfo") :
    issuesGraphqlSeries pages = ⟨["date", "issues"], []⟩ := by
  have hgo := issuesGraphqlGo_conf 10 pages [] hconf
  unfold issuesGraphqlSeries
  rw [hgo]
  rfl

/-- Claim C9 witness: two query-conformant pages carrying `nodes` dates
still produce the empty issues frame. -/
theorem claim_C9_witness :
    issuesGraphqlSeries [⟨[("nodes", .nodes [5, 6]),
        ("pageInfo", .pageInfo true none)]⟩,
      ⟨[("nodes", .nodes [7])]⟩] = ⟨["date", "issues"], []⟩ :=
  claim_C9 _ (by decide)
